import Mathlib

/-!
Shallow embedding of the video clip sampling / preprocessing pipeline
(`video_module.py`, `dataset.py`).

Modelling conventions:
* Python `int` is `ℤ`; list lengths and buffer shapes are `ℕ`.
* The floating point expressions `clip_len + clip_len / 2` and the
  comparisons against it are exact for integer inputs of realistic size,
  so they are modelled exactly over `ℚ` (`buffer_len >= 1.5 * clip_len`
  becomes `2 * buffer_len ≥ 3 * clip_len`).
* `np.random.randint(n)` draws uniformly from `[0, n)` and raises
  `ValueError` when `n ≤ 0`.  It is modelled by an explicit draw
  parameter `r : ℕ`: the result is `r % n` (every value of `[0, n)` is
  realised by some `r`), and `none` models the raised exception.
* Fallible code returns `Option`; `none` stands for a raised exception
  or (for the frame-count doubling and index-looping loops) divergence.
* numpy float arrays are modelled by `NDArray`: an explicit shape plus a
  total map from index lists to `Option ℚ`, where `none` models `NaN`
  (or an infinity); arithmetic propagates `none` like IEEE `NaN`.
* The external image codec (`cv2.imread`, `cv2.resize`) is opaque: it is
  passed in as a `Codec` record of oracle functions.  Decoded images are
  modelled as total functions from (integer) pixel coordinates, so the
  spatial-slicing of a decoded frame becomes an index translation.
-/

/-- `np.random.randint(n)` with explicit draw `r`: uniform on `[0, n)`,
`ValueError` (i.e. `none`) when `n ≤ 0`. -/
def pyRandint (n : ℤ) (r : ℕ) : Option ℤ :=
  if 0 < n then some ((r : ℤ) % n) else none

/-- The loop multiplier chosen by `temporal_crop` when the video is
shorter than `clip_len * 1.5`: `int(np.ceil(sample_len / buffer_len))`,
with the source's special case fixing it at `2` when `buffer_len` is
`32` or `0`. -/
def temporal_multiplier (buffer_len clip_len : ℤ) : ℤ :=
  if buffer_len ≠ 32 ∧ buffer_len ≠ 0 then
    ⌈(3 * clip_len : ℚ) / (2 * buffer_len : ℚ)⌉
  else 2

/-- `temporal_crop(buffer_len, clip_len)` from `video_module.py`:
random temporal window of width `clip_len`. -/
def temporal_crop (buffer_len clip_len : ℤ) (r : ℕ) : Option (ℤ × ℤ) :=
  (if 2 * buffer_len ≥ 3 * clip_len then
      pyRandint (buffer_len - clip_len) r
    else
      pyRandint (buffer_len * temporal_multiplier buffer_len clip_len - clip_len) r).map
    (fun start_index => (start_index, start_index + clip_len))

/-- `temporal_center_crop(buffer_len, clip_len)`: deterministic centered
window; `buffer_len = 0` in the else-branch raises `ZeroDivisionError`
(`clip_len / buffer_len`), modelled as `none`. -/
def temporal_center_crop (buffer_len clip_len : ℤ) : Option (ℤ × ℤ) :=
  if buffer_len ≥ clip_len then
    let start_index := (buffer_len - clip_len).fdiv 2
    some (start_index, start_index + clip_len)
  else if buffer_len = 0 then none
  else
    let multiplier : ℤ := ⌈(clip_len : ℚ) / (buffer_len : ℚ)⌉
    let start_index := (buffer_len * multiplier - clip_len).fdiv 2
    some (start_index, start_index + clip_len)

/-- The `while buffer_len < (clip_len + clip_len / 2): buffer_len *= 2`
loop at the head of `temporal_uniform_crop`.  `none` models divergence
(the loop never exits when `buffer_len ≤ 0 < clip_len`). -/
def loopDouble (clip_len buffer_len : ℤ) : Option ℤ :=
  if 2 * buffer_len < 3 * clip_len then
    if 1 ≤ buffer_len then loopDouble clip_len (2 * buffer_len) else none
  else some buffer_len
termination_by (3 * clip_len - 2 * buffer_len).toNat
decreasing_by omega

/-- Python 3 `round` on a rational value: round half to even. -/
def pythonRound (q : ℚ) : ℤ :=
  if q - (⌊q⌋ : ℚ) < 1/2 then ⌊q⌋
  else if 1/2 < q - (⌊q⌋ : ℚ) then ⌊q⌋ + 1
  else if ⌊q⌋ % 2 = 0 then ⌊q⌋ else ⌊q⌋ + 1

/-- The window-accumulation loop of `temporal_uniform_crop`: starting
from `indices = [(0, clip_len)]`, append `k` windows, each starting at
`round(previous_end + spacing)`.  The second component tracks the last
appended window (`indices[i-1]` in the source). -/
def uniform_indices (clip_len : ℤ) (spacing : ℚ) : ℕ → List (ℤ × ℤ) × (ℤ × ℤ)
  | 0 => ([(0, clip_len)], (0, clip_len))
  | k + 1 =>
    let prev := uniform_indices clip_len spacing k
    let start := pythonRound ((prev.2.2 : ℚ) + spacing)
    (prev.1 ++ [(start, start + clip_len)], (start, start + clip_len))

/-- `temporal_uniform_crop(buffer_len, clip_len, clips_per_video)`:
doubles `buffer_len` until it reaches `clip_len * 1.5`, computes the
spacing `(buffer_len - clip_len*n) / (n - 1)` (ZeroDivisionError for
`n = 1`, modelled as `none`), emits the first window `(0, clip_len)`,
`n - 2` spaced windows, and the forced final window
`(buffer_len - clip_len, buffer_len)`. -/
def temporal_uniform_crop (buffer_len clip_len clips_per_video : ℤ) :
    Option (List (ℤ × ℤ)) :=
  (loopDouble clip_len buffer_len).bind fun L =>
    if clips_per_video = 1 then none
    else
      let spacing : ℚ :=
        ((L : ℚ) - (clip_len : ℚ) * (clips_per_video : ℚ)) /
          ((clips_per_video : ℚ) - 1)
      some ((uniform_indices clip_len spacing (clips_per_video - 2).toNat).1 ++
        [(L - clip_len, L)])

/-- `spatial_crop(buffer_size, clip_size)`: random spatial window.  The
two `np.random.randint` draws are the explicit parameters `rh`, `rw`. -/
def spatial_crop (buffer_size clip_size : ℤ × ℤ) (rh rw : ℕ) :
    Option ((ℤ × ℤ) × (ℤ × ℤ)) :=
  (pyRandint (buffer_size.1 - clip_size.1) rh).bind fun start_h =>
    (pyRandint (buffer_size.2 - clip_size.2) rw).bind fun start_w =>
      some ((start_h, start_h + clip_size.1), (start_w, start_w + clip_size.2))

/-- `spatial_center_crop(buffer_size, clip_size)`: deterministic
centered spatial window (`//` is Python floor division). -/
def spatial_center_crop (buffer_size clip_size : ℤ × ℤ) :
    (ℤ × ℤ) × (ℤ × ℤ) :=
  let start_h := (buffer_size.1 - clip_size.1).fdiv 2
  let start_w := (buffer_size.2 - clip_size.2).fdiv 2
  ((start_h, start_h + clip_size.1), (start_w, start_w + clip_size.2))

/-- Elementwise action of `normalize_buffer`: `(buffer - 128) / 128`.
All the floating point operations involved are exact for 8-bit inputs,
so `ℚ` models them exactly. -/
def normalize_val (v : ℚ) : ℚ := (v - 128) / 128

/-- Truncation toward zero, as in a float-to-integer cast. -/
def truncToInt (q : ℚ) : ℤ := if 0 ≤ q then ⌊q⌋ else -⌊-q⌋

/-- `.astype(np.uint8)` on a (finite) float value: truncate toward zero
and wrap modulo 256. -/
def astype_uint8 (q : ℚ) : ℤ := truncToInt q % 256

/-- Elementwise action of `denormalize_buffer`:
`(buffer * 128 + 128).astype(np.uint8)`. -/
def denormalize_val (q : ℚ) : ℤ := astype_uint8 (q * 128 + 128)

/-- Optional rational: `none` models an IEEE `NaN` (or infinity)
flowing through numpy float arithmetic. -/
abbrev ValO := Option ℚ

/-- Addition with `NaN` propagation. -/
def oAdd (a b : ValO) : ValO :=
  match a, b with
  | some x, some y => some (x + y)
  | _, _ => none

/-- Subtraction with `NaN` propagation. -/
def oSub (a b : ValO) : ValO :=
  match a, b with
  | some x, some y => some (x - y)
  | _, _ => none

/-- Multiplication with `NaN` propagation. -/
def oMul (a b : ValO) : ValO :=
  match a, b with
  | some x, some y => some (x * y)
  | _, _ => none

/-- Division: `NaN` propagates, and a zero divisor yields `none`
(in this pipeline a zero divisor only occurs with a zero dividend,
where IEEE gives `NaN`). -/
def oDiv (a b : ValO) : ValO :=
  match a, b with
  | some x, some y => if y = 0 then none else some (x / y)
  | _, _ => none

/-- `np.abs` with `NaN` propagation. -/
def oAbs (a : ValO) : ValO := a.map (fun x => |x|)

/-- Binary minimum; `NaN` propagates (as `np.min` does). -/
def oMin2 (a b : ValO) : ValO :=
  match a, b with
  | some x, some y => some (min x y)
  | _, _ => none

/-- Binary maximum; `NaN` propagates (as `np.max` does). -/
def oMax2 (a b : ValO) : ValO :=
  match a, b with
  | some x, some y => some (max x y)
  | _, _ => none

/-- `np.sum` over a list of values (`0` on the empty list, as numpy). -/
def oListSum (l : List ValO) : ValO := l.foldl oAdd (some 0)

/-- `np.min` over a list of values; `none` on the empty list models the
raised `ValueError`. -/
def oListMin (l : List ValO) : ValO :=
  match l with
  | [] => none
  | x :: xs => xs.foldl oMin2 x

/-- `np.max` over a list of values. -/
def oListMax (l : List ValO) : ValO :=
  match l with
  | [] => none
  | x :: xs => xs.foldl oMax2 x

/-- A numpy float array: an explicit shape and a total map from index
lists to values.  Only indices componentwise below `shape` are
meaningful. -/
structure NDArray where
  shape : List ℕ
  data : List ℕ → ValO

/-- `normalize_buffer(buffer) = (buffer - 128) / 128`, elementwise over
the whole array. -/
def normalize_buffer (nd : NDArray) : NDArray :=
  ⟨nd.shape, fun idx => oDiv (oSub (nd.data idx) (some 128)) (some 128)⟩

/-- `denormalize_buffer(buffer) = (buffer * 128 + 128).astype(np.uint8)`,
elementwise; the result holds 8-bit integers. -/
def denormalize_buffer (nd : NDArray) : List ℕ → Option ℤ :=
  fun idx => (nd.data idx).map denormalize_val

/-- Enumeration of the index triples of the axes `(1, 2, 3)` (depth,
height, width) of a 5-d buffer. -/
def idxTriples (d h w : ℕ) : List (ℕ × ℕ × ℕ) :=
  (List.range d).bind fun t =>
    (List.range h).bind fun a =>
      (List.range w).map fun b => (t, a, b)

/-- `flow_mean_sub`: the temporal mean `np.sum(buffer, axis=1) / sh[1]`
at clip `c`, position `(a, b)`, channel `k`. -/
def fms_mean (nd : NDArray) (d : ℕ) (c a b k : ℕ) : ValO :=
  oDiv (oListSum ((List.range d).map fun t => nd.data [c, t, a, b, k]))
    (some (d : ℚ))

/-- `flow_mean_sub`: the mean-subtracted value
`buffer - np.expand_dims(buffer_mean, 1)`. -/
def fms_sub (nd : NDArray) (d : ℕ) (c t a b k : ℕ) : ValO :=
  oSub (nd.data [c, t, a, b, k]) (fms_mean nd d c a b k)

/-- `flow_mean_sub`: `np.min(buffer, axis=(1, 2, 3))` of the
mean-subtracted buffer, per clip `c` and channel `k`. -/
def fms_min (nd : NDArray) (d h w : ℕ) (c k : ℕ) : ValO :=
  oListMin ((idxTriples d h w).map fun tab =>
    fms_sub nd d c tab.1 tab.2.1 tab.2.2 k)

/-- `flow_mean_sub`: the shifted value
`buffer + np.abs(np.min(buffer, axis=(1,2,3))).reshape(...)`. -/
def fms_shift (nd : NDArray) (d h w : ℕ) (c t a b k : ℕ) : ValO :=
  oAdd (fms_sub nd d c t a b k) (oAbs (fms_min nd d h w c k))

/-- `flow_mean_sub`: `np.max(buffer, axis=(1, 2, 3))` of the shifted
buffer, per clip `c` and channel `k`. -/
def fms_max (nd : NDArray) (d h w : ℕ) (c k : ℕ) : ValO :=
  oListMax ((idxTriples d h w).map fun tab =>
    fms_shift nd d h w c tab.1 tab.2.1 tab.2.2 k)

/-- `flow_mean_sub(buffer)` on a 5-d buffer of shape
`(clip_num, depth, h, w, chnl)`: temporal mean subtraction, then a
min-shift and max-rescale by 255 per clip and channel.  `none` when the
shape is not 5-d or a reduced axis is empty (`np.min` raises there). -/
def flow_mean_sub (nd : NDArray) : Option NDArray :=
  match nd.shape with
  | [_nc, dd, hh, ww, _cc] =>
    if 1 ≤ dd ∧ 1 ≤ hh ∧ 1 ≤ ww then
      some ⟨nd.shape, fun idx =>
        match idx with
        | [c, t, a, b, k] =>
          oMul (oDiv (fms_shift nd dd hh ww c t a b k)
            (fms_max nd dd hh ww c k)) (some 255)
        | _ => none⟩
    else none
  | _ => none

/-- A decoded colour image: total map from `(row, col, channel)` pixel
coordinates (opaque original size). -/
abbrev Img := ℤ → ℤ → ℤ → ℚ

/-- A decoded grayscale image. -/
abbrev GrayImg := ℤ → ℤ → ℚ

/-- The external image codec (`cv2`), an opaque collaborator:
`imread` returns `none` on a failed decode (`cv2.imread` returns
`None`); `resize`/`resizeGray` model `cv2.resize(img, (w, h))`. -/
structure Codec where
  imread : String → Option Img
  imreadGray : String → Option GrayImg
  resize : Img → ℤ → ℤ → Img
  resizeGray : GrayImg → ℤ → ℤ → GrayImg

/-- Python list indexing `l[i]`: negative indices count from the end,
out-of-range raises `IndexError` (`none`). -/
def pyIndex {α : Type} (l : List α) (i : ℤ) : Option α :=
  if 0 ≤ i then l.get? i.toNat
  else if 0 ≤ i + (l.length : ℤ) then l.get? (i + (l.length : ℤ)).toNat
  else none

/-- The inner `while ccount >= frame_count: ccount -= frame_count` loop
of `load_clips`.  `none` models divergence (`frame_count ≤ 0` with
`count ≥ frame_count`). -/
def loopIndex (count frame_count : ℤ) : Option ℤ :=
  if count < frame_count then some count
  else if 1 ≤ frame_count then loopIndex (count - frame_count) frame_count
  else none
termination_by count.toNat
decreasing_by omega

/-- The list of integers of `[s, e)` (the temporal positions a
`while count < end` loop visits). -/
def intRange (s e : ℤ) : List ℤ :=
  (List.range (e - s).toNat).map fun i => s + (i : ℤ)

/-- Spatial slicing `frame[s0 : s0+H, s1 : s1+W, :]` of a decoded
colour frame: an index translation. -/
def cropAt (img : Img) (h0 w0 : ℤ) : Img :=
  fun a b k => img (a + h0) (b + w0) k

/-- Spatial slicing of a grayscale frame. -/
def cropAtG (img : GrayImg) (h0 w0 : ℤ) : GrayImg :=
  fun a b => img (a + h0) (b + w0)

/-- `np.copyto(buffer[c, t, :, :, :], frame)` for an rgb frame. -/
def writeFrameRGB (buf : NDArray) (c t : ℕ) (img : Img) : NDArray :=
  ⟨buf.shape, fun idx =>
    match idx with
    | [c1, t1, a, b, k] =>
      if c1 = c ∧ t1 = t then some (img (a : ℤ) (b : ℤ) (k : ℤ))
      else buf.data idx
    | _ => buf.data idx⟩

/-- `np.copyto(buffer[c, t, :, :, i], frame[:, :, 0])` for one flow
direction `i`. -/
def writeFrameFlowChan (buf : NDArray) (c t i : ℕ) (img : GrayImg) :
    NDArray :=
  ⟨buf.shape, fun idx =>
    match idx with
    | [c1, t1, a, b, k] =>
      if c1 = c ∧ t1 = t ∧ k = i then some (img (a : ℤ) (b : ℤ))
      else buf.data idx
    | _ => buf.data idx⟩

/-- One iteration of the frame-assembly loop of `load_clips` at clip
`c` and temporal position `count`: loop the index into range, fetch the
frame path(s), decode, resize, colour-convert/crop and write into the
buffer.  For rgb, a failed decode crashes in `cv2.cvtColor(None, ...)`
(`none`); for flow, a failed decode of either direction prints the path
and skips the write.  The state is the buffer plus the printed log. -/
def assembleStep (codec : Codec) (path0 path1 : List String)
    (frame_count scale_h scale_w sh0 sw0 : ℤ) (frame_chn : ℕ)
    (c : ℕ) (tstart : ℤ) (st : NDArray × List String) (count : ℤ) :
    Option (NDArray × List String) :=
  (loopIndex count frame_count).bind fun ccount =>
    let t : ℕ := (count - tstart).toNat
    if frame_chn = 3 then
      (pyIndex path0 ccount).bind fun p =>
        match codec.imread p with
        | none => none
        | some img0 =>
          let rgb : Img := fun a b k => codec.resize img0 scale_w scale_h a b (2 - k)
          some (writeFrameRGB st.1 c t (cropAt rgb sh0 sw0), st.2)
    else
      (pyIndex path0 ccount).bind fun p0 =>
        (pyIndex path1 ccount).bind fun p1 =>
          let st1 : NDArray × List String :=
            match codec.imreadGray p0 with
            | some g =>
              (writeFrameFlowChan st.1 c t 0
                (cropAtG (codec.resizeGray g scale_w scale_h) sh0 sw0), st.2)
            | none => (st.1, st.2 ++ [p0])
          let st2 : NDArray × List String :=
            match codec.imreadGray p1 with
            | some g =>
              (writeFrameFlowChan st1.1 c t 1
                (cropAtG (codec.resizeGray g scale_w scale_h) sh0 sw0), st1.2)
            | none => (st1.1, st1.2 ++ [p1])
          some st2

/-- The full assembly double loop of `load_clips`: for each clip index
`c < clips_per_video`, fetch its temporal window `t_index[c]` and run
`assembleStep` over its positions. -/
def assembleAll (codec : Codec) (path0 path1 : List String)
    (frame_count scale_h scale_w sh0 sw0 : ℤ) (frame_chn : ℕ)
    (clips_per_video : ℕ) (t_index : List (ℤ × ℤ))
    (st0 : NDArray × List String) : Option (NDArray × List String) :=
  (List.range clips_per_video).foldlM
    (fun st c =>
      (t_index.get? c).bind fun w =>
        (intRange w.1 w.2).foldlM
          (assembleStep codec path0 path1 frame_count scale_h scale_w
            sh0 sw0 frame_chn c w.1) st)
    st0

/-- The temporal-index selection of `load_clips`: random single window
for train, centered single window for validation, ten uniform windows
for test. -/
def select_t_index (mode : String) (frame_count : ℤ) (output_len : ℕ)
    (r : ℕ) : Option (List (ℤ × ℤ)) :=
  if mode = "train" then
    (temporal_crop frame_count (output_len : ℤ) r).map fun w => [w]
  else if mode = "validation" then
    (temporal_center_crop frame_count (output_len : ℤ)).map fun w => [w]
  else
    temporal_uniform_crop frame_count (output_len : ℤ) 10

/-- The spatial-index selection of `load_clips`: random for train,
centered otherwise. -/
def select_s_index (mode : String) (buffer_size clip_size : ℤ × ℤ)
    (rh rw : ℕ) : Option ((ℤ × ℤ) × (ℤ × ℤ)) :=
  if mode = "train" then spatial_crop buffer_size clip_size rh rw
  else some (spatial_center_crop buffer_size clip_size)

/-- `buffer[0, :, :, :, :]`. -/
def slice0 (nd : NDArray) : Option NDArray :=
  match nd.shape with
  | [] => none
  | n :: rest =>
    if n = 0 then none
    else some ⟨rest, fun idx => nd.data (0 :: idx)⟩

/-- `buffer.transpose((3, 0, 1, 2))` on a 4-d array. -/
def transpose3012 (nd : NDArray) : Option NDArray :=
  match nd.shape with
  | [s0, s1, s2, s3] =>
    some ⟨[s3, s0, s1, s2], fun idx =>
      match idx with
      | [a, b, c, d] => nd.data [b, c, d, a]
      | _ => none⟩
  | _ => none

/-- `buffer.transpose((0, 4, 1, 2, 3))` on a 5-d array. -/
def transpose04123 (nd : NDArray) : Option NDArray :=
  match nd.shape with
  | [s0, s1, s2, s3, s4] =>
    some ⟨[s0, s4, s1, s2, s3], fun idx =>
      match idx with
      | [a, b, c, d, e] => nd.data [a, c, d, e, b]
      | _ => none⟩
  | _ => none

/-- `load_clips(frames_path, modality, scale_h, scale_w, output_h,
output_w, output_len, mode, mean_sub)` from `video_module.py`.

* `path_content` stands for the lexicographically sorted `.jpg`
  listings of the frame directories (the `glob` + `sort` step is I/O);
  `frame_count` is the length of the first listing.
* `initMem` is the unspecified content of the `np.empty` allocation.
* `r_t`, `r_h`, `r_w` are the explicit `np.random.randint` draws.
* The result pairs the returned volume with the list of frame paths
  printed for skipped (undecodable) flow frames; `none` models a raised
  exception (failed assertion, `ValueError`, `IndexError`, `cv2.error`)
  or divergence. -/
def load_clips (codec : Codec) (initMem : List ℕ → ValO)
    (path_content : List (List String)) (modality : String)
    (scale_h scale_w : ℤ) (output_h output_w output_len : ℕ)
    (mode : String) (mean_sub : Bool) (r_t r_h r_w : ℕ) :
    Option (NDArray × List String) :=
  if ¬ (if modality = "rgb" then path_content.length = 1
        else path_content.length = 2) then none
  else if ¬ (mode = "train" ∨ mode = "validation" ∨ mode = "test") then none
  else
    let clips_per_video : ℕ :=
      if mode = "train" ∨ mode = "validation" then 1 else 10
    let path0 := path_content.headD []
    let path1 := (path_content.drop 1).headD []
    let frame_count : ℤ := (path0.length : ℤ)
    let frame_chn : ℕ := if modality = "rgb" then 3 else 2
    (select_t_index mode frame_count output_len r_t).bind fun t_index =>
      (select_s_index mode (scale_h, scale_w)
          ((output_h : ℤ), (output_w : ℤ)) r_h r_w).bind fun s_index =>
        let buffer0 : NDArray :=
          ⟨[clips_per_video, output_len, output_h, output_w, frame_chn],
            initMem⟩
        (assembleAll codec path0 path1 frame_count scale_h scale_w
            s_index.1.1 s_index.2.1 frame_chn clips_per_video t_index
            (buffer0, [])).bind fun asm =>
          (if mean_sub = true ∧ modality = "flow" then flow_mean_sub asm.1
           else some asm.1).bind fun buf2 =>
            let buf3 := normalize_buffer buf2
            if mode = "train" ∨ mode = "validation" then
              (slice0 buf3).bind fun sliced =>
                (transpose3012 sliced).map fun fin => (fin, asm.2)
            else
              (transpose04123 buf3).map fun fin => (fin, asm.2)

/-- The constructor arguments of `VideoDataset` that its assertion
block validates. -/
structure DatasetConfig where
  dataset : String
  split : ℤ
  mode : String
  modality : String
  load_mode : String
  clips_per_video : ℤ

/-- The assertion chain of `VideoDataset.__init__` (`dataset.py`,
lines 49-60); it runs before any file I/O, so an invalid configuration
fails fast at construction. -/
def dataset_init_validate (c : DatasetConfig) : Bool :=
  (c.dataset == "ucf" || c.dataset == "hmdb") &&
  (c.split == 1 || c.split == 2 || c.split == 3) &&
  (c.mode == "train" || c.mode == "test") &&
  (c.modality == "rgb" || c.modality == "flow") &&
  (if c.mode == "train" then c.load_mode == "clip" else true) &&
  (if c.load_mode == "clip" then c.clips_per_video == 1
   else decide (1 < c.clips_per_video))

/-- The validity predicate as the specification words it: dataset in
the two known datasets, split in 1..3, mode train/test, modality
rgb/flow, train only with single-clip loading, single-clip loading with
exactly one clip per video, multi-clip loading with more than one. -/
def spec_valid_config (c : DatasetConfig) : Prop :=
  (c.dataset = "ucf" ∨ c.dataset = "hmdb") ∧
  (c.split = 1 ∨ c.split = 2 ∨ c.split = 3) ∧
  (c.mode = "train" ∨ c.mode = "test") ∧
  (c.modality = "rgb" ∨ c.modality = "flow") ∧
  ¬(c.mode = "train" ∧ c.load_mode ≠ "clip") ∧
  ¬(c.load_mode = "clip" ∧ c.clips_per_video ≠ 1) ∧
  ¬(c.load_mode ≠ "clip" ∧ c.clips_per_video ≤ 1)

/-- The per-sample state a constructed `VideoDataset` holds: frame
directory listings per sample, integer labels, and the configuration
its `__getitem__` forwards. -/
structure Provider where
  clip_names : List (List (List String))
  labels : List ℤ
  modality : String
  load_mode : String
  clip_len : ℕ

/-- `VideoDataset.__getitem__(index)` (`dataset.py`, lines 114-121):
`load_clips(self._clip_names[index], self._modality, 128, 171, 112,
112, self._crop_depth, mode=self._load_mode, clips_per_video=...)`,
paired with `self._labels[index]`.

The source call also passes a `clips_per_video` keyword argument that
the `load_clips` of `video_module.py` does not accept, so in Python the
call raises `TypeError` before `load_clips` runs; the embedding keeps
only the parameters `load_clips` declares and the `mode` argument it
receives, which already fails `load_clips`'s mode assertion. -/
def dataset_getitem (p : Provider) (codec : Codec)
    (initMem : List ℕ → ValO) (index r_t r_h r_w : ℕ) :
    Option (NDArray × ℤ) :=
  (p.clip_names.get? index).bind fun names =>
    (p.labels.get? index).bind fun lab =>
      (load_clips codec initMem names p.modality 128 171 112 112
          p.clip_len p.load_mode true r_t r_h r_w).map fun res =>
        (res.1, lab)

/-! ### Helper lemmas -/

theorem loopDouble_isSome (clip_len buffer_len : ℤ) (h : 1 ≤ buffer_len) :
    (loopDouble clip_len buffer_len).isSome := by
  rw [loopDouble]
  split
  · exact loopDouble_isSome clip_len (2 * buffer_len) (by omega)
  · simp
termination_by (3 * clip_len - 2 * buffer_len).toNat
decreasing_by omega

theorem loopDouble_exit (clip_len buffer_len L : ℤ)
    (h : loopDouble clip_len buffer_len = some L) : 3 * clip_len ≤ 2 * L := by
  rw [loopDouble] at h
  split at h
  · split at h
    · exact loopDouble_exit clip_len (2 * buffer_len) L h
    · simp at h
  · rename_i hge
    rw [Option.some.injEq] at h
    omega
termination_by (3 * clip_len - 2 * buffer_len).toNat
decreasing_by omega

theorem pythonRound_nonneg (q : ℚ) (h : 0 ≤ q) : 0 ≤ pythonRound q := by
  have hf : (0 : ℤ) ≤ ⌊q⌋ := Int.floor_nonneg.mpr h
  unfold pythonRound
  split
  · exact hf
  · split
    · omega
    · split <;> omega

theorem pythonRound_spacing_nonneg (clip_len n L : ℤ)
    (hcl : 0 ≤ clip_len) (hn : 2 ≤ n) (h3c : 3 * clip_len ≤ 2 * L) :
    0 ≤ (clip_len : ℚ) +
      ((L : ℚ) - (clip_len : ℚ) * (n : ℚ)) / ((n : ℚ) - 1) := by
  have hn1 : (0 : ℚ) < (n : ℚ) - 1 := by
    have : (2 : ℚ) ≤ (n : ℚ) := by exact_mod_cast hn
    linarith
  have hLc : (clip_len : ℚ) ≤ (L : ℚ) := by
    exact_mod_cast (by omega : clip_len ≤ L)
  have key : (clip_len : ℚ) +
      ((L : ℚ) - (clip_len : ℚ) * (n : ℚ)) / ((n : ℚ) - 1) =
      ((L : ℚ) - (clip_len : ℚ)) / ((n : ℚ) - 1) := by
    field_simp
    ring
  rw [key]
  exact div_nonneg (by linarith) (le_of_lt hn1)

theorem loopIndex_bounds (count frame_count : ℤ) (hfc : 1 ≤ frame_count)
    (hc : 0 ≤ count) :
    ∃ j, loopIndex count frame_count = some j ∧ 0 ≤ j ∧ j < frame_count := by
  rw [loopIndex]
  by_cases h : count < frame_count
  · exact ⟨count, by rw [if_pos h], hc, h⟩
  · rw [if_neg h, if_pos hfc]
    exact loopIndex_bounds (count - frame_count) frame_count hfc (by omega)
termination_by count.toNat
decreasing_by omega

theorem uniform_indices_invariant (clip_len : ℤ) (spacing : ℚ)
    (hcs : 0 ≤ (clip_len : ℚ) + spacing) (k : ℕ) :
    (∀ w ∈ (uniform_indices clip_len spacing k).1, 0 ≤ w.1 ∧ w.2 = w.1 + clip_len) ∧
    0 ≤ (uniform_indices clip_len spacing k).2.1 ∧
    (uniform_indices clip_len spacing k).2.2 =
      (uniform_indices clip_len spacing k).2.1 + clip_len := by
  induction k with
  | zero =>
    refine ⟨?_, le_refl 0, (zero_add clip_len).symm⟩
    intro w hw
    simp only [uniform_indices, List.mem_singleton] at hw
    subst hw
    exact ⟨le_refl 0, (zero_add clip_len).symm⟩
  | succ k ih =>
    obtain ⟨hall, hlast1, hlast2⟩ := ih
    have hstart : 0 ≤ pythonRound
        (((uniform_indices clip_len spacing k).2.2 : ℚ) + spacing) := by
      apply pythonRound_nonneg
      rw [hlast2]
      push_cast
      have h1 : (0 : ℚ) ≤ ((uniform_indices clip_len spacing k).2.1 : ℚ) := by
        exact_mod_cast hlast1
      linarith
    constructor
    · intro w hw
      simp only [uniform_indices, List.mem_append, List.mem_singleton] at hw
      rcases hw with hw | hw
      · exact hall w hw
      · subst hw
        exact ⟨hstart, rfl⟩
    · exact ⟨hstart, rfl⟩

theorem uniform_indices_length (clip_len : ℤ) (spacing : ℚ) (k : ℕ) :
    (uniform_indices clip_len spacing k).1.length = k + 1 := by
  induction k with
  | zero => rfl
  | succ k ih => simp [uniform_indices, ih]

theorem uniform_indices_head (clip_len : ℤ) (spacing : ℚ) (k : ℕ) :
    (uniform_indices clip_len spacing k).1.head? = some (0, clip_len) := by
  induction k with
  | zero => rfl
  | succ k ih => simp [uniform_indices, List.head?_append, ih]

/-! ### C10 -/

/-- C10: the frame-count doubling loop at the head of
`temporal_uniform_crop` terminates for every `frame_count ≥ 1` (it
strictly increases `frame_count` each iteration until the bound
`clip_len * 1.5` is reached); `loopDouble` returning `some` is exactly
loop exit. -/
theorem uniform_loop_terminates (clip_len frame_count : ℤ)
    (h : 1 ≤ frame_count) : (loopDouble clip_len frame_count).isSome :=
  loopDouble_isSome clip_len frame_count h

/-- Witness for C10 at `clip_len = 16`, `frame_count = 5`. -/
theorem uniform_loop_terminates_witness :
    (1 : ℤ) ≤ 5 ∧ (loopDouble 16 5).isSome :=
  ⟨by decide, uniform_loop_terminates 16 5 (by decide)⟩

/-! ### C3 -/

/-- C3 counterexample: with `n = 1` (allowed by the claim's `n ≥ 1`),
`temporal_uniform_crop(5, 16, 1)` raises `ZeroDivisionError` computing
`spacing = (buffer_len - clip_len*n) / (n - 1)`, so it does not return
one window as the claim requires. -/
theorem temporal_uniform_crop_one_clip_fails :
    temporal_uniform_crop 5 16 1 = none := by
  simp [temporal_uniform_crop, loopDouble]

/-- C3 amended (`n ≥ 2` instead of `n ≥ 1`): for `frame_count ≥ 1`,
`clip_len ≥ 1` and `n ≥ 2`, `temporal_uniform_crop` returns exactly `n`
windows, each of width `clip_len`, the first being `(0, clip_len)` and
the last ending exactly at the (possibly doubled) frame count. -/
theorem temporal_uniform_crop_spec (frame_count clip_len n : ℤ)
    (hfc : 1 ≤ frame_count) (hcl : 1 ≤ clip_len) (hn : 2 ≤ n) :
    ∃ L ws, loopDouble clip_len frame_count = some L ∧
      temporal_uniform_crop frame_count clip_len n = some ws ∧
      ws.length = n.toNat ∧
      ws.head? = some (0, clip_len) ∧
      (∀ w ∈ ws, w.2 - w.1 = clip_len) ∧
      ws.getLast? = some (L - clip_len, L) := by
  obtain ⟨L, hL⟩ := Option.isSome_iff_exists.mp
    (loopDouble_isSome clip_len frame_count hfc)
  have h3c : 3 * clip_len ≤ 2 * L := loopDouble_exit _ _ _ hL
  refine ⟨L,
    (uniform_indices clip_len
      (((L : ℚ) - (clip_len : ℚ) * (n : ℚ)) / ((n : ℚ) - 1))
      (n - 2).toNat).1 ++ [(L - clip_len, L)],
    hL, ?_, ?_, ?_, ?_, ?_⟩
  · unfold temporal_uniform_crop
    rw [hL, Option.some_bind, if_neg (by omega : ¬ n = 1)]
  · rw [List.length_append, uniform_indices_length, List.length_singleton]
    omega
  · rw [List.head?_append, uniform_indices_head]
    rfl
  · intro w hw
    rcases List.mem_append.mp hw with hw | hw
    · have hinv := uniform_indices_invariant clip_len
        (((L : ℚ) - (clip_len : ℚ) * (n : ℚ)) / ((n : ℚ) - 1))
        (pythonRound_spacing_nonneg clip_len n L (by omega) hn h3c)
        (n - 2).toNat
      obtain ⟨_, h2⟩ := hinv.1 w hw
      omega
    · rw [List.mem_singleton] at hw
      subst hw
      omega
  · exact List.getLast?_concat _

/-- Witness for C3's amended theorem at
`frame_count = 5`, `clip_len = 16`, `n = 10`. -/
theorem temporal_uniform_crop_spec_witness :
    ∃ L ws, loopDouble 16 5 = some L ∧
      temporal_uniform_crop 5 16 10 = some ws ∧
      ws.length = (10 : ℤ).toNat ∧
      ws.head? = some (0, 16) ∧
      (∀ w ∈ ws, w.2 - w.1 = 16) ∧
      ws.getLast? = some (L - 16, L) :=
  temporal_uniform_crop_spec 5 16 10 (by decide) (by decide) (by decide)

/-! ### C4 -/

/-- C4 counterexample: the claim's preconditions allow
`crop = scaled` (`crop_h ≤ scale_h`, `crop_w ≤ scale_w`), but then
`spatial_crop` calls `np.random.randint(0)`, which raises `ValueError`
instead of returning the only fitting window — for every outcome of
the draw. -/
theorem spatial_crop_equal_size_fails :
    spatial_crop (112, 112) (112, 112) 0 0 = none := by decide

/-- C4 amended: `random_window` succeeds and stays in the (looped)
bounds for every draw when `frame_count ≥ 1`, except in the inherited
special case `frame_count = 32` with `clip_len ≥ 64` (where the fixed
multiplier 2 makes the `randint` bound nonpositive); `random_crop`
succeeds and stays in bounds for every draw when the crop is strictly
smaller than the scaled size in both dimensions (at equality the
`randint(0)` call raises). -/
theorem random_crops_in_bounds :
    (∀ (frame_count clip_len : ℤ) (r : ℕ),
      1 ≤ frame_count →
      ¬(frame_count = 32 ∧ 64 ≤ clip_len) →
      ∃ s e, temporal_crop frame_count clip_len r = some (s, e) ∧
        0 ≤ s ∧
        e ≤ (if 2 * frame_count ≥ 3 * clip_len then frame_count
             else frame_count * temporal_multiplier frame_count clip_len)) ∧
    (∀ (scale_h scale_w crop_h crop_w : ℤ) (rh rw : ℕ),
      crop_h < scale_h → crop_w < scale_w →
      ∃ wh ww,
        spatial_crop (scale_h, scale_w) (crop_h, crop_w) rh rw = some (wh, ww) ∧
        0 ≤ wh.1 ∧ wh.2 ≤ scale_h ∧ 0 ≤ ww.1 ∧ ww.2 ≤ scale_w) := by
  constructor
  · intro fc c r hfc hspecial
    unfold temporal_crop pyRandint
    by_cases hbr : 2 * fc ≥ 3 * c
    · rw [if_pos hbr, if_pos hbr]
      have hpos : 0 < fc - c := by omega
      rw [if_pos hpos]
      refine ⟨(r : ℤ) % (fc - c), _, rfl, Int.emod_nonneg _ (by omega), ?_⟩
      have := Int.emod_lt_of_pos (r : ℤ) hpos
      omega
    · rw [if_neg hbr, if_neg hbr]
      have hc1 : 1 ≤ c := by omega
      have hpos : 0 < fc * temporal_multiplier fc c - c := by
        unfold temporal_multiplier
        by_cases h32 : fc ≠ 32 ∧ fc ≠ 0
        · rw [if_pos h32]
          have hfc0 : (0 : ℚ) < 2 * (fc : ℚ) := by positivity
          have hceil : (3 * (c : ℚ)) / (2 * (fc : ℚ)) ≤
              (⌈(3 * (c : ℚ)) / (2 * (fc : ℚ))⌉ : ℚ) := Int.le_ceil _
          rw [div_le_iff hfc0] at hceil
          have hkey : (3 * c : ℤ) ≤ 2 * (fc * ⌈(3 * (c : ℚ)) / (2 * (fc : ℚ))⌉) := by
            have : ((3 * c : ℤ) : ℚ) ≤
                ((2 * (fc * ⌈(3 * (c : ℚ)) / (2 * (fc : ℚ))⌉) : ℤ) : ℚ) := by
              push_cast at hceil ⊢
              linarith
            exact_mod_cast this
          omega
        · rw [if_neg h32]
          have hfc32 : fc = 32 := by omega
          have hc64 : c < 64 := by
            by_contra hcon
            exact hspecial ⟨hfc32, by omega⟩
          omega
      rw [if_pos hpos]
      refine ⟨(r : ℤ) % (fc * temporal_multiplier fc c - c), _, rfl,
        Int.emod_nonneg _ (by omega), ?_⟩
      have := Int.emod_lt_of_pos (r : ℤ) hpos
      omega
  · intro sh sw ch cw rh rw hh hw
    unfold spatial_crop pyRandint
    dsimp only
    rw [if_pos (by omega : (0 : ℤ) < sh - ch), if_pos (by omega : (0 : ℤ) < sw - cw)]
    have h1 := Int.emod_nonneg (rh : ℤ) (by omega : sh - ch ≠ 0)
    have h2 := Int.emod_lt_of_pos (rh : ℤ) (by omega : (0 : ℤ) < sh - ch)
    have h3 := Int.emod_nonneg (rw : ℤ) (by omega : sw - cw ≠ 0)
    have h4 := Int.emod_lt_of_pos (rw : ℤ) (by omega : (0 : ℤ) < sw - cw)
    exact ⟨_, _, rfl, h1, by omega, h3, by omega⟩

/-- Witness for C4's amended theorem: the temporal part at
`frame_count = 5`, `clip_len = 4`, draw `0`; the spatial part at
`scaled = (128, 171)`, `crop = (112, 112)`, draws `0`, `0`. -/
theorem random_crops_in_bounds_witness :
    (∃ s e, temporal_crop 5 4 0 = some (s, e) ∧ 0 ≤ s ∧
      e ≤ (if 2 * 5 ≥ 3 * 4 then 5 else 5 * temporal_multiplier 5 4)) ∧
    (∃ wh ww, spatial_crop (128, 171) (112, 112) 0 0 = some (wh, ww) ∧
      0 ≤ wh.1 ∧ wh.2 ≤ 128 ∧ 0 ≤ ww.1 ∧ ww.2 ≤ 171) :=
  ⟨random_crops_in_bounds.1 5 4 0 (by decide) (by decide),
   random_crops_in_bounds.2 128 171 112 112 0 0 (by decide) (by decide)⟩

/-! ### C6 -/

/-- C6: `denormalize_buffer` after `normalize_buffer` recovers every
8-bit value within the claimed 1-unit tolerance (in fact exactly: all
the floating point operations involved are exact for 8-bit inputs). -/
theorem normalize_denormalize_roundtrip (nd : NDArray) (idx : List ℕ)
    (v : ℤ) (hv : nd.data idx = some ((v : ℤ) : ℚ))
    (h0 : 0 ≤ v) (h255 : v ≤ 255) :
    ∃ u, denormalize_buffer (normalize_buffer nd) idx = some u ∧
      (u - v).natAbs ≤ 1 := by
  refine ⟨v, ?_, by simp⟩
  have hval : (((v : ℚ) - 128) / 128) * 128 + 128 = (v : ℚ) := by
    field_simp
  have htrunc : truncToInt ((v : ℤ) : ℚ) = v := by
    unfold truncToInt
    rw [if_pos (by exact_mod_cast h0)]
    exact Int.floor_intCast v
  simp only [denormalize_buffer, normalize_buffer, hv, oSub, oDiv, oMul, oAdd,
    Option.map_some]
  rw [if_neg (by norm_num : (128 : ℚ) ≠ 0), Option.map_some', Option.some.injEq]
  unfold denormalize_val astype_uint8
  rw [hval, htrunc]
  omega

/-- Witness for C6 at `v = 37`. -/
theorem normalize_denormalize_roundtrip_witness :
    ∃ u, denormalize_buffer
        (normalize_buffer ⟨[1], fun _ => some ((37 : ℤ) : ℚ)⟩) [0] = some u ∧
      (u - 37).natAbs ≤ 1 :=
  normalize_denormalize_roundtrip _ [0] 37 rfl (by decide) (by decide)

/-! ### C8 -/

/-- C8: the assertion chain of `VideoDataset.__init__` accepts a
configuration exactly when it satisfies the specification's validity
conditions: dataset among the two known datasets, split in 1..3, mode
train/test, modality rgb/flow, train only with single-clip loading,
single-clip loading only with exactly one clip per video, multi-clip
loading only with more than one. -/
theorem init_validation_iff (c : DatasetConfig) :
    dataset_init_validate c = true ↔ spec_valid_config c := by
  unfold dataset_init_validate spec_valid_config
  by_cases h1 : c.mode = "train" <;> by_cases h2 : c.load_mode = "clip" <;>
    simp [h1, h2, not_le] <;> tauto

/-! ### C9 -/

theorem pyRandint_nonneg (n : ℤ) (r : ℕ) (s : ℤ)
    (h : pyRandint n r = some s) : 0 ≤ s := by
  unfold pyRandint at h
  split at h
  · rw [Option.some.injEq] at h
    subst h
    exact Int.emod_nonneg _ (by omega)
  · simp at h

theorem temporal_crop_start_nonneg (buffer_len clip_len : ℤ) (r : ℕ)
    (w : ℤ × ℤ) (h : temporal_crop buffer_len clip_len r = some w) :
    0 ≤ w.1 := by
  unfold temporal_crop at h
  rcases Option.map_eq_some'.mp h with ⟨s, hs, hw⟩
  subst hw
  split at hs <;> exact pyRandint_nonneg _ _ _ hs

theorem temporal_center_crop_start_nonneg (buffer_len clip_len : ℤ)
    (hfc : 1 ≤ buffer_len) (w : ℤ × ℤ)
    (h : temporal_center_crop buffer_len clip_len = some w) : 0 ≤ w.1 := by
  unfold temporal_center_crop at h
  split at h
  · rw [Option.some.injEq] at h
    subst h
    exact Int.fdiv_nonneg (by omega) (by omega)
  · split at h
    · simp at h
    · rw [Option.some.injEq] at h
      subst h
      refine Int.fdiv_nonneg ?_ (by omega)
      rename_i hlt _
      have hc0 : 0 < clip_len := by omega
      have hfc0 : (0 : ℚ) < (buffer_len : ℚ) := by exact_mod_cast hfc
      have hceil : (clip_len : ℚ) / (buffer_len : ℚ) ≤
          (⌈(clip_len : ℚ) / (buffer_len : ℚ)⌉ : ℚ) := Int.le_ceil _
      rw [div_le_iff hfc0] at hceil
      have : (clip_len : ℤ) ≤ buffer_len * ⌈(clip_len : ℚ) / (buffer_len : ℚ)⌉ := by
        have h2 : ((clip_len : ℤ) : ℚ) ≤
            ((buffer_len * ⌈(clip_len : ℚ) / (buffer_len : ℚ)⌉ : ℤ) : ℚ) := by
          push_cast
          linarith
        exact_mod_cast h2
      omega

theorem select_t_index_starts_nonneg (mode : String) (frame_count : ℤ)
    (output_len r : ℕ) (ws : List (ℤ × ℤ)) (hfc : 1 ≤ frame_count)
    (hsel : select_t_index mode frame_count output_len r = some ws) :
    ∀ w ∈ ws, 0 ≤ w.1 := by
  intro w hw
  unfold select_t_index at hsel
  split_ifs at hsel
  · rcases Option.map_eq_some'.mp hsel with ⟨w0, hw0, hws⟩
    subst hws
    rw [List.mem_singleton] at hw
    subst hw
    exact temporal_crop_start_nonneg _ _ _ _ hw0
  · rcases Option.map_eq_some'.mp hsel with ⟨w0, hw0, hws⟩
    subst hws
    rw [List.mem_singleton] at hw
    subst hw
    exact temporal_center_crop_start_nonneg _ _ hfc _ hw0
  · unfold temporal_uniform_crop at hsel
    rcases Option.bind_eq_some.mp hsel with ⟨L, hL, hrest⟩
    rw [if_neg (by norm_num)] at hrest
    rw [Option.some.injEq] at hrest
    subst hrest
    have h3c : 3 * (output_len : ℤ) ≤ 2 * L := loopDouble_exit _ _ _ hL
    rcases List.mem_append.mp hw with hw | hw
    · have hinv := uniform_indices_invariant (output_len : ℤ)
        (((L : ℚ) - ((output_len : ℤ) : ℚ) * ((10 : ℤ) : ℚ)) / (((10 : ℤ) : ℚ) - 1))
        (pythonRound_spacing_nonneg (output_len : ℤ) 10 L
          (by positivity) (by norm_num) h3c)
        ((10 : ℤ) - 2).toNat
      exact (hinv.1 w hw).1
    · rw [List.mem_singleton] at hw
      subst hw
      have : (0 : ℤ) ≤ (output_len : ℤ) := by positivity
      omega

/-- C9: for every `frame_count ≥ 1` and every temporal window selected
by `load_clips`'s samplers (any mode, any draw), every position of the
window is mapped by the repeated-subtraction loop to an index in
`[0, frame_count)`, so the subsequent access into the sorted frame
listing (of length `frame_count`) is never out of bounds. -/
theorem temporal_positions_in_range (mode : String) (frame_count : ℤ)
    (output_len r : ℕ) (ws : List (ℤ × ℤ)) (hfc : 1 ≤ frame_count)
    (hsel : select_t_index mode frame_count output_len r = some ws) :
    ∀ w ∈ ws, ∀ t : ℤ, w.1 ≤ t → t < w.2 →
      ∃ j, loopIndex t frame_count = some j ∧ 0 ≤ j ∧ j < frame_count := by
  intro w hw t ht1 _
  have hw1 : 0 ≤ w.1 :=
    select_t_index_starts_nonneg mode frame_count output_len r ws hfc hsel w hw
  exact loopIndex_bounds t frame_count hfc (le_trans hw1 ht1)

/-- Witness for C9: train mode, `frame_count = 30`, `clip_len = 16`,
draw `0` selects window `(0, 16)`; position `t = 7` maps to index
`7 < 30`. -/
theorem temporal_positions_in_range_witness :
    ∃ j, loopIndex 7 30 = some j ∧ 0 ≤ j ∧ j < 30 := by
  have hsel : select_t_index "train" 30 16 0 = some [(0, 16)] := by decide
  exact temporal_positions_in_range "train" 30 16 0 _ (by norm_num) hsel
    (0, 16) (by decide) 7 (by decide) (by decide)

/-! ### C7 -/

theorem foldl_oAdd_isSome (l : List ValO) (s : ℚ)
    (hall : ∀ x ∈ l, x.isSome) : (l.foldl oAdd (some s)).isSome := by
  induction l generalizing s with
  | nil => rfl
  | cons y ys ih =>
    obtain ⟨qy, hqy⟩ := Option.isSome_iff_exists.mp (hall y (List.mem_cons_self _ _))
    subst hqy
    exact ih (s + qy) (fun x hx => hall x (List.mem_cons_of_mem _ hx))

theorem oListSum_isSome (l : List ValO) (hall : ∀ x ∈ l, x.isSome) :
    (oListSum l).isSome :=
  foldl_oAdd_isSome l 0 hall

theorem foldl_oMin2_le (xs : List ValO) (acc : ValO) (m : ℚ)
    (h : xs.foldl oMin2 acc = some m) :
    (∃ qa, acc = some qa ∧ m ≤ qa) ∧
    ∀ x ∈ xs, ∃ q, x = some q ∧ m ≤ q := by
  induction xs generalizing acc with
  | nil =>
    refine ⟨⟨m, h, le_refl m⟩, ?_⟩
    intro x hx
    simp at hx
  | cons y ys ih =>
    rw [List.foldl_cons] at h
    obtain ⟨⟨qa1, hacc1, hle1⟩, hall⟩ := ih (oMin2 acc y) h
    rcases acc with _ | qa <;> rcases y with _ | qy <;> simp [oMin2] at hacc1
    subst hacc1
    refine ⟨⟨qa, rfl, le_trans hle1 (min_le_left _ _)⟩, ?_⟩
    intro x hx
    rcases List.mem_cons.mp hx with hx | hx
    · subst hx
      exact ⟨qy, rfl, le_trans hle1 (min_le_right _ _)⟩
    · exact hall x hx

theorem oListMin_le (l : List ValO) (m : ℚ) (hm : oListMin l = some m) :
    ∀ x ∈ l, ∃ q, x = some q ∧ m ≤ q := by
  rcases l with _ | ⟨y, ys⟩
  · intro x hx
    simp at hx
  · unfold oListMin at hm
    obtain ⟨⟨qa, hacc, hle⟩, hall⟩ := foldl_oMin2_le ys y m hm
    intro x hx
    rcases List.mem_cons.mp hx with hx | hx
    · subst hx
      exact ⟨qa, hacc, hle⟩
    · exact hall x hx

theorem foldl_oMax2_ge (xs : List ValO) (acc : ValO) (m : ℚ)
    (h : xs.foldl oMax2 acc = some m) :
    (∃ qa, acc = some qa ∧ qa ≤ m) ∧
    ∀ x ∈ xs, ∃ q, x = some q ∧ q ≤ m := by
  induction xs generalizing acc with
  | nil =>
    refine ⟨⟨m, h, le_refl m⟩, ?_⟩
    intro x hx
    simp at hx
  | cons y ys ih =>
    rw [List.foldl_cons] at h
    obtain ⟨⟨qa1, hacc1, hle1⟩, hall⟩ := ih (oMax2 acc y) h
    rcases acc with _ | qa <;> rcases y with _ | qy <;> simp [oMax2] at hacc1
    subst hacc1
    refine ⟨⟨qa, rfl, le_trans (le_max_left _ _) hle1⟩, ?_⟩
    intro x hx
    rcases List.mem_cons.mp hx with hx | hx
    · subst hx
      exact ⟨qy, rfl, le_trans (le_max_right _ _) hle1⟩
    · exact hall x hx

theorem oListMax_ge (l : List ValO) (m : ℚ) (hm : oListMax l = some m) :
    ∀ x ∈ l, ∃ q, x = some q ∧ q ≤ m := by
  rcases l with _ | ⟨y, ys⟩
  · intro x hx
    simp at hx
  · unfold oListMax at hm
    obtain ⟨⟨qa, hacc, hle⟩, hall⟩ := foldl_oMax2_ge ys y m hm
    intro x hx
    rcases List.mem_cons.mp hx with hx | hx
    · subst hx
      exact ⟨qa, hacc, hle⟩
    · exact hall x hx

theorem foldl_oMin2_isSome (xs : List ValO) (acc : ValO)
    (hacc : acc.isSome) (hall : ∀ x ∈ xs, x.isSome) :
    (xs.foldl oMin2 acc).isSome := by
  induction xs generalizing acc with
  | nil => exact hacc
  | cons y ys ih =>
    obtain ⟨qa, hqa⟩ := Option.isSome_iff_exists.mp hacc
    obtain ⟨qy, hqy⟩ := Option.isSome_iff_exists.mp (hall y (List.mem_cons_self _ _))
    subst hqa hqy
    rw [List.foldl_cons]
    exact ih (oMin2 (some qa) (some qy)) (by simp [oMin2])
      (fun x hx => hall x (List.mem_cons_of_mem _ hx))

theorem foldl_oMax2_isSome (xs : List ValO) (acc : ValO)
    (hacc : acc.isSome) (hall : ∀ x ∈ xs, x.isSome) :
    (xs.foldl oMax2 acc).isSome := by
  induction xs generalizing acc with
  | nil => exact hacc
  | cons y ys ih =>
    obtain ⟨qa, hqa⟩ := Option.isSome_iff_exists.mp hacc
    obtain ⟨qy, hqy⟩ := Option.isSome_iff_exists.mp (hall y (List.mem_cons_self _ _))
    subst hqa hqy
    rw [List.foldl_cons]
    exact ih (oMax2 (some qa) (some qy)) (by simp [oMax2])
      (fun x hx => hall x (List.mem_cons_of_mem _ hx))

theorem mem_idxTriples (d h w t a b : ℕ) :
    (t, a, b) ∈ idxTriples d h w ↔ t < d ∧ a < h ∧ b < w := by
  simp only [idxTriples, List.mem_bind, List.mem_map, List.mem_range,
    Prod.mk.injEq]
  constructor
  · rintro ⟨t1, ht1, a1, ha1, b1, hb1, rfl, rfl, rfl⟩
    exact ⟨ht1, ha1, hb1⟩
  · rintro ⟨ht, ha, hb⟩
    exact ⟨t, ht, a, ha, b, hb, rfl, rfl, rfl⟩

theorem oListMin_isSome (l : List ValO) (hne : l ≠ [])
    (hall : ∀ x ∈ l, x.isSome) : (oListMin l).isSome := by
  rcases l with _ | ⟨y, ys⟩
  · exact absurd rfl hne
  · exact foldl_oMin2_isSome ys y (hall y (List.mem_cons_self _ _))
      (fun x hx => hall x (List.mem_cons_of_mem _ hx))

theorem oListMax_isSome (l : List ValO) (hne : l ≠ [])
    (hall : ∀ x ∈ l, x.isSome) : (oListMax l).isSome := by
  rcases l with _ | ⟨y, ys⟩
  · exact absurd rfl hne
  · exact foldl_oMax2_isSome ys y (hall y (List.mem_cons_self _ _))
      (fun x hx => hall x (List.mem_cons_of_mem _ hx))

theorem oDiv_some_of_ne (x y : ℚ) (hy : y ≠ 0) :
    oDiv (some x) (some y) = some (x / y) := by
  simp [oDiv, hy]

theorem fms_sub_isSome (nd : NDArray) (dd : ℕ) (hdd : 1 ≤ dd)
    (htotal : ∀ idx, (nd.data idx).isSome) (c t a b k : ℕ) :
    (fms_sub nd dd c t a b k).isSome := by
  unfold fms_sub fms_mean
  obtain ⟨σ, hσ⟩ := Option.isSome_iff_exists.mp
    (oListSum_isSome ((List.range dd).map fun t1 => nd.data [c, t1, a, b, k])
      (by
        intro x hx
        rcases List.mem_map.mp hx with ⟨t1, _, rfl⟩
        exact htotal _))
  rw [hσ, oDiv_some_of_ne _ _ (by exact_mod_cast (by omega : dd ≠ 0))]
  obtain ⟨v, hv⟩ := Option.isSome_iff_exists.mp (htotal [c, t, a, b, k])
  rw [hv]
  simp [oSub]

/-- C7 amended: after mean subtraction, min-shift and max-rescale
(`flow_mean_sub`) followed by `normalize_buffer`, every element of a
5-d flow buffer whose entries are all (finite) numbers lies in
`[-1, 1]` — provided that, for the element's clip and channel, the
rescaling maximum is not zero (i.e. the mean-subtracted block is not
identically zero); when the maximum is zero the division is `0/0`,
producing `NaN`. -/
theorem flow_pipeline_range (nd : NDArray) (nc dd hh ww cc : ℕ)
    (hshape : nd.shape = [nc, dd, hh, ww, cc])
    (htotal : ∀ idx, (nd.data idx).isSome)
    (out : NDArray) (hout : flow_mean_sub nd = some out)
    (c t a b k : ℕ) (ht : t < dd) (ha : a < hh) (hb : b < ww)
    (hmax0 : fms_max nd dd hh ww c k ≠ some 0) :
    ∃ q, (normalize_buffer out).data [c, t, a, b, k] = some q ∧
      -1 ≤ q ∧ q ≤ 1 := by
  have hdd : 1 ≤ dd := by omega
  -- identify `out`
  unfold flow_mean_sub at hout
  rw [hshape] at hout
  dsimp only at hout
  rw [if_pos ⟨by omega, by omega, by omega⟩, Option.some.injEq] at hout
  subst hout
  -- the mean-subtracted values over the (depth, height, width) block
  have hsub_all : ∀ x ∈ (idxTriples dd hh ww).map
      (fun tab => fms_sub nd dd c tab.1 tab.2.1 tab.2.2 k), x.isSome := by
    intro x hx
    rcases List.mem_map.mp hx with ⟨tab, _, rfl⟩
    exact fms_sub_isSome nd dd hdd htotal c _ _ _ k
  have hmem_sub : fms_sub nd dd c t a b k ∈ (idxTriples dd hh ww).map
      (fun tab => fms_sub nd dd c tab.1 tab.2.1 tab.2.2 k) :=
    List.mem_map.mpr ⟨(t, a, b), (mem_idxTriples dd hh ww t a b).mpr ⟨ht, ha, hb⟩, rfl⟩
  have hne_sub : (idxTriples dd hh ww).map
      (fun tab => fms_sub nd dd c tab.1 tab.2.1 tab.2.2 k) ≠ [] :=
    List.ne_nil_of_mem hmem_sub
  -- the minimum of the block
  obtain ⟨m, hm⟩ := Option.isSome_iff_exists.mp
    (oListMin_isSome _ hne_sub hsub_all)
  have hm' : fms_min nd dd hh ww c k = some m := hm
  -- the element's own mean-subtracted value
  obtain ⟨ye, hye, hmye⟩ := oListMin_le _ m hm _ hmem_sub
  -- the shifted values
  have hshift_e : fms_shift nd dd hh ww c t a b k = some (ye + |m|) := by
    unfold fms_shift
    rw [hye, hm', oAbs]
    simp [oAdd]
  have hshift_all : ∀ x ∈ (idxTriples dd hh ww).map
      (fun tab => fms_shift nd dd hh ww c tab.1 tab.2.1 tab.2.2 k), x.isSome := by
    intro x hx
    rcases List.mem_map.mp hx with ⟨tab, htab, rfl⟩
    unfold fms_shift
    obtain ⟨ys, hys⟩ := Option.isSome_iff_exists.mp
      (fms_sub_isSome nd dd hdd htotal c tab.1 tab.2.1 tab.2.2 k)
    rw [hys, hm', oAbs]
    simp [oAdd]
  have hmem_shift : fms_shift nd dd hh ww c t a b k ∈ (idxTriples dd hh ww).map
      (fun tab => fms_shift nd dd hh ww c tab.1 tab.2.1 tab.2.2 k) :=
    List.mem_map.mpr ⟨(t, a, b), (mem_idxTriples dd hh ww t a b).mpr ⟨ht, ha, hb⟩, rfl⟩
  have hne_shift : (idxTriples dd hh ww).map
      (fun tab => fms_shift nd dd hh ww c tab.1 tab.2.1 tab.2.2 k) ≠ [] :=
    List.ne_nil_of_mem hmem_shift
  -- the maximum of the shifted block
  obtain ⟨M, hM⟩ := Option.isSome_iff_exists.mp
    (oListMax_isSome _ hne_shift hshift_all)
  have hM' : fms_max nd dd hh ww c k = some M := hM
  obtain ⟨se, hse, hseM⟩ := oListMax_ge _ M hM _ hmem_shift
  rw [hshift_e, Option.some.injEq] at hse
  subst hse
  -- numeric range of the element
  have hs0 : 0 ≤ ye + |m| := by
    have := neg_abs_le m
    linarith
  have hMne : M ≠ 0 := by
    intro hM0
    subst hM0
    exact hmax0 hM'
  have hMpos : 0 < M := lt_of_le_of_ne (le_trans hs0 hseM) (Ne.symm hMne)
  have hv0 : 0 ≤ (ye + |m|) / M * 255 := by positivity
  have hv255 : (ye + |m|) / M * 255 ≤ 255 := by
    have hdle : (ye + |m|) / M ≤ 1 := (div_le_one hMpos).mpr hseM
    nlinarith
  -- evaluate the pipeline at the element
  refine ⟨((ye + |m|) / M * 255 - 128) / 128, ?_, by linarith, by linarith⟩
  show oDiv (oSub (oMul (oDiv (fms_shift nd dd hh ww c t a b k)
      (fms_max nd dd hh ww c k)) (some 255)) (some 128)) (some 128) = _
  rw [hshift_e, hM', oDiv_some_of_ne _ _ hMne]
  rw [show oMul (some ((ye + |m|) / M)) (some 255) =
    some ((ye + |m|) / M * 255) from rfl]
  rw [show oSub (some ((ye + |m|) / M * 255)) (some 128) =
    some ((ye + |m|) / M * 255 - 128) from rfl]
  exact oDiv_some_of_ne _ _ (by norm_num)

/-- C7 counterexample: a temporally constant flow buffer (here the
all-zero 1×1×1×1×1 buffer) is mean-subtracted to all zeros, so the
rescaling divides `0 / 0`: the resulting element is `NaN` (`none`),
not a number in `[-1, 1]`, and normalization propagates it. -/
theorem flow_pipeline_nan_on_constant :
    ∃ out, flow_mean_sub ⟨[1, 1, 1, 1, 1], fun _ => some 0⟩ = some out ∧
      (normalize_buffer out).data [0, 0, 0, 0, 0] = none := by
  refine ⟨_, rfl, ?_⟩
  have hidx : idxTriples 1 1 1 = [(0, 0, 0)] := rfl
  have h1 : fms_sub ⟨[1, 1, 1, 1, 1], fun _ => some 0⟩ 1 0 0 0 0 0 = some 0 := by
    simp [fms_sub, fms_mean, oListSum, oAdd, oSub, oDiv]
  have h2 : fms_min ⟨[1, 1, 1, 1, 1], fun _ => some 0⟩ 1 1 1 0 0 = some 0 := by
    simp [fms_min, hidx, oListMin, h1]
  have h3 : fms_shift ⟨[1, 1, 1, 1, 1], fun _ => some 0⟩ 1 1 1 0 0 0 0 0 = some 0 := by
    simp [fms_shift, h1, h2, oAbs, oAdd]
  have h4 : fms_max ⟨[1, 1, 1, 1, 1], fun _ => some 0⟩ 1 1 1 0 0 = some 0 := by
    simp [fms_max, hidx, oListMax, h3]
  show oDiv (oSub (oMul (oDiv
    (fms_shift ⟨[1, 1, 1, 1, 1], fun _ => some 0⟩ 1 1 1 0 0 0 0 0)
    (fms_max ⟨[1, 1, 1, 1, 1], fun _ => some 0⟩ 1 1 1 0 0)) (some 255))
      (some 128)) (some 128) = none
  rw [h3, h4]
  simp [oDiv, oMul, oSub]

/-- Witness for C7's amended theorem: the 1×2×1×1×1 flow buffer with
temporal samples 0 and 1 has a nonzero rescaling maximum, and the
normalized pipeline output at position `[0,0,0,0,0]` is in `[-1, 1]`. -/
theorem flow_pipeline_range_witness :
    ∃ out, flow_mean_sub
        ⟨[1, 2, 1, 1, 1], fun idx => if idx = [0, 1, 0, 0, 0] then some 1 else some 0⟩ =
        some out ∧
      ∃ q, (normalize_buffer out).data [0, 0, 0, 0, 0] = some q ∧
        -1 ≤ q ∧ q ≤ 1 := by
  refine ⟨_, rfl, ?_⟩
  refine flow_pipeline_range
    ⟨[1, 2, 1, 1, 1], fun idx => if idx = [0, 1, 0, 0, 0] then some 1 else some 0⟩
    1 2 1 1 1 rfl ?_ _ rfl 0 0 0 0 0 (by omega) (by omega) (by omega) ?_
  · intro idx
    dsimp only
    split <;> rfl
  · have hidx : idxTriples 2 1 1 = [(0, 0, 0), (1, 0, 0)] := rfl
    have hmean : fms_mean
        ⟨[1, 2, 1, 1, 1], fun idx => if idx = [0, 1, 0, 0, 0] then some 1 else some 0⟩
        2 0 0 0 0 = some (1 / 2) := by
      simp [fms_mean, oListSum, List.range_succ, oAdd, oDiv]
    have hsub0 : fms_sub
        ⟨[1, 2, 1, 1, 1], fun idx => if idx = [0, 1, 0, 0, 0] then some 1 else some 0⟩
        2 0 0 0 0 0 = some (-(1 / 2)) := by
      simp [fms_sub, hmean, oSub]
    have hsub1 : fms_sub
        ⟨[1, 2, 1, 1, 1], fun idx => if idx = [0, 1, 0, 0, 0] then some 1 else some 0⟩
        2 0 1 0 0 0 = some (1 / 2) := by
      simp [fms_sub, hmean, oSub]
      norm_num
    have hmin : fms_min
        ⟨[1, 2, 1, 1, 1], fun idx => if idx = [0, 1, 0, 0, 0] then some 1 else some 0⟩
        2 1 1 0 0 = some (-(1 / 2)) := by
      simp [fms_min, hidx, oListMin, hsub0, hsub1, oMin2]
    have hshift0 : fms_shift
        ⟨[1, 2, 1, 1, 1], fun idx => if idx = [0, 1, 0, 0, 0] then some 1 else some 0⟩
        2 1 1 0 0 0 0 0 = some 0 := by
      simp [fms_shift, hsub0, hmin, oAbs, oAdd]
      norm_num [abs_of_nonneg]
    have hshift1 : fms_shift
        ⟨[1, 2, 1, 1, 1], fun idx => if idx = [0, 1, 0, 0, 0] then some 1 else some 0⟩
        2 1 1 0 1 0 0 0 = some 1 := by
      simp [fms_shift, hsub1, hmin, oAbs, oAdd]
      norm_num [abs_of_nonneg]
    have hmax : fms_max
        ⟨[1, 2, 1, 1, 1], fun idx => if idx = [0, 1, 0, 0, 0] then some 1 else some 0⟩
        2 1 1 0 0 = some 1 := by
      simp [fms_max, hidx, oListMax, hshift0, hshift1, oMax2]
    rw [hmax]
    simp

/-! ### C2 -/

theorem assembleStep_shape (codec : Codec) (path0 path1 : List String)
    (fc sh sw h0 w0 : ℤ) (chn c : ℕ) (ts : ℤ)
    (st st' : NDArray × List String) (count : ℤ)
    (h : assembleStep codec path0 path1 fc sh sw h0 w0 chn c ts st count =
      some st') :
    st'.1.shape = st.1.shape := by
  unfold assembleStep at h
  rcases Option.bind_eq_some.mp h with ⟨cc, hcc, h⟩
  split at h
  · rcases Option.bind_eq_some.mp h with ⟨p, hp, h⟩
    rcases himg : codec.imread p with _ | img0 <;> rw [himg] at h
    · simp at h
    · rw [Option.some.injEq] at h
      subst h
      rfl
  · rcases Option.bind_eq_some.mp h with ⟨p0, hp0, h⟩
    rcases Option.bind_eq_some.mp h with ⟨p1, hp1, h⟩
    rw [Option.some.injEq] at h
    subst h
    rcases hg0 : codec.imreadGray p0 with _ | g0 <;>
      rcases hg1 : codec.imreadGray p1 with _ | g1 <;>
      simp [hg0, hg1, writeFrameFlowChan]

theorem foldlM_pres_shape {β : Type}
    (f : NDArray × List String → β → Option (NDArray × List String))
    (hf : ∀ s a s', f s a = some s' → s'.1.shape = s.1.shape) :
    ∀ (l : List β) (st st' : NDArray × List String),
      l.foldlM f st = some st' → st'.1.shape = st.1.shape := by
  intro l
  induction l with
  | nil =>
    intro st st' h
    simp only [List.foldlM_nil, Option.pure_def, Option.some.injEq] at h
    subst h
    rfl
  | cons a l ih =>
    intro st st' h
    rw [List.foldlM_cons] at h
    rcases Option.bind_eq_some.mp h with ⟨s1, h1, h2⟩
    exact (ih s1 st' h2).trans (hf st a s1 h1)

theorem assembleAll_shape (codec : Codec) (path0 path1 : List String)
    (fc sh sw h0 w0 : ℤ) (chn cpv : ℕ) (t_index : List (ℤ × ℤ))
    (st0 st' : NDArray × List String)
    (h : assembleAll codec path0 path1 fc sh sw h0 w0 chn cpv t_index st0 =
      some st') :
    st'.1.shape = st0.1.shape := by
  unfold assembleAll at h
  refine foldlM_pres_shape _ ?_ _ st0 st' h
  intro s c s' hc
  rcases Option.bind_eq_some.mp hc with ⟨w, _, hfold⟩
  exact foldlM_pres_shape _
    (fun s2 cnt s2' h2 =>
      assembleStep_shape codec path0 path1 fc sh sw h0 w0 chn c w.1 s2 s2' cnt h2)
    _ s s' hfold

theorem flow_mean_sub_shape (nd out : NDArray)
    (h : flow_mean_sub nd = some out) : out.shape = nd.shape := by
  unfold flow_mean_sub at h
  split at h
  · split at h
    · rw [Option.some.injEq] at h
      subst h
      rfl
    · simp at h
  · simp at h

theorem slice0_shape (nd out : NDArray) (h : slice0 nd = some out) :
    out.shape = nd.shape.tail := by
  unfold slice0 at h
  split at h
  · simp at h
  · split at h
    · simp at h
    · rw [Option.some.injEq] at h
      subst h
      rename_i n rest hsh _
      rw [hsh]
      rfl

theorem transpose3012_shape (nd out : NDArray) (s0 s1 s2 s3 : ℕ)
    (hsh : nd.shape = [s0, s1, s2, s3]) (h : transpose3012 nd = some out) :
    out.shape = [s3, s0, s1, s2] := by
  unfold transpose3012 at h
  rw [hsh] at h
  dsimp only at h
  rw [Option.some.injEq] at h
  subst h
  rfl

theorem transpose04123_shape (nd out : NDArray) (s0 s1 s2 s3 s4 : ℕ)
    (hsh : nd.shape = [s0, s1, s2, s3, s4]) (h : transpose04123 nd = some out) :
    out.shape = [s0, s4, s1, s2, s3] := by
  unfold transpose04123 at h
  rw [hsh] at h
  dsimp only at h
  rw [Option.some.injEq] at h
  subst h
  rfl

/-- C2: whenever `load_clips` returns a volume, its shape is the
canonical shape determined by the configuration alone —
`(channels, clip_len, crop_h, crop_w)` for train/validation and
`(10, channels, clip_len, crop_h, crop_w)` for test, with 3 channels
for rgb and 2 for flow — independent of the source video's frame
count, the random draws, the decoded pixel data and the allocation's
initial contents. -/
theorem load_clips_shape (codec : Codec) (initMem : List ℕ → ValO)
    (path_content : List (List String)) (modality : String)
    (scale_h scale_w : ℤ) (output_h output_w output_len : ℕ)
    (mode : String) (mean_sub : Bool) (r_t r_h r_w : ℕ)
    (arr : NDArray) (log : List String)
    (h : load_clips codec initMem path_content modality scale_h scale_w
      output_h output_w output_len mode mean_sub r_t r_h r_w =
      some (arr, log)) :
    arr.shape = if mode = "train" ∨ mode = "validation"
      then [(if modality = "rgb" then 3 else 2), output_len, output_h, output_w]
      else
        [10, (if modality = "rgb" then 3 else 2), output_len, output_h,
          output_w] := by
  unfold load_clips at h
  rcases Decidable.em
      (if modality = "rgb" then path_content.length = 1
       else path_content.length = 2) with hg1 | hg1
  swap
  · rw [if_pos hg1] at h
    simp at h
  rw [if_neg (not_not_intro hg1)] at h
  rcases Decidable.em (mode = "train" ∨ mode = "validation" ∨ mode = "test")
    with hg2 | hg2
  swap
  · rw [if_pos hg2] at h
    simp at h
  rw [if_neg (not_not_intro hg2)] at h
  rcases Option.bind_eq_some.mp h with ⟨t_index, hti, h⟩
  rcases Option.bind_eq_some.mp h with ⟨s_index, hsi, h⟩
  rcases Option.bind_eq_some.mp h with ⟨asm, hasm, h⟩
  rcases Option.bind_eq_some.mp h with ⟨buf2, hbuf2, h⟩
  have hasm_shape : asm.1.shape =
      [(if mode = "train" ∨ mode = "validation" then 1 else 10), output_len,
        output_h, output_w, (if modality = "rgb" then 3 else 2)] :=
    assembleAll_shape _ _ _ _ _ _ _ _ _ _ _ _ _ hasm
  have hbuf2_shape : buf2.shape = asm.1.shape := by
    split at hbuf2
    · exact flow_mean_sub_shape _ _ hbuf2
    · rw [Option.some.injEq] at hbuf2
      subst hbuf2
      rfl
  split at h
  · rename_i hmode
    rw [if_pos hmode]
    rcases Option.bind_eq_some.mp h with ⟨sliced, hsl, h⟩
    rcases Option.map_eq_some'.mp h with ⟨fin, hfin, hpair⟩
    rw [Prod.mk.injEq] at hpair
    have hsl_shape : sliced.shape =
        [output_len, output_h, output_w, (if modality = "rgb" then 3 else 2)] := by
      have hts := slice0_shape _ _ hsl
      rw [hts]
      show (normalize_buffer buf2).shape.tail = _
      have hnb : (normalize_buffer buf2).shape = buf2.shape := rfl
      rw [hnb, hbuf2_shape, hasm_shape, if_pos hmode]
      rfl
    rw [← hpair.1]
    exact transpose3012_shape _ _ _ _ _ _ hsl_shape hfin
  · rename_i hmode
    rw [if_neg hmode]
    rcases Option.map_eq_some'.mp h with ⟨fin, hfin, hpair⟩
    rw [Prod.mk.injEq] at hpair
    have hb3_shape : (normalize_buffer buf2).shape =
        [10, output_len, output_h, output_w,
          (if modality = "rgb" then 3 else 2)] := by
      have hnb : (normalize_buffer buf2).shape = buf2.shape := rfl
      rw [hnb, hbuf2_shape, hasm_shape, if_neg hmode]
    rw [← hpair.1]
    exact transpose04123_shape _ _ _ _ _ _ _ hb3_shape hfin

/-- Witness for C2: a validation-mode rgb load from a 1-frame listing
with unit sizes succeeds and has the canonical shape `[3, 1, 1, 1]`. -/
theorem load_clips_shape_witness :
    ∃ arr log, load_clips
        ⟨fun _ => some (fun _ _ _ => 0), fun _ => some (fun _ _ => 0),
          fun img _ _ => img, fun img _ _ => img⟩
        (fun _ => some 0) [["a"]] "rgb" 1 1 1 1 1 "validation" true 0 0 0 =
        some (arr, log) ∧
      arr.shape = [3, 1, 1, 1] := by
  have hli0 : loopIndex 0 1 = some 0 := by simp [loopIndex]
  have hr1 : List.range 1 = [0] := rfl
  have hint : intRange 0 1 = [0] := rfl
  have hget : [((0 : ℤ), (1 : ℤ))].get? 0 = some (0, 1) := rfl
  have hrun : ∃ pr, load_clips
      ⟨fun _ => some (fun _ _ _ => 0), fun _ => some (fun _ _ => 0),
        fun img _ _ => img, fun img _ _ => img⟩
      (fun _ => some 0) [["a"]] "rgb" 1 1 1 1 1 "validation" true 0 0 0 =
      some pr := by
    simp [load_clips, select_t_index, select_s_index, temporal_center_crop,
      spatial_center_crop, assembleAll, assembleStep, hli0, hr1, hint, hget,
      pyIndex, writeFrameRGB, normalize_buffer, slice0, transpose3012,
      List.foldlM_cons, List.foldlM_nil]
  obtain ⟨⟨arr, log⟩, hrun⟩ := hrun
  refine ⟨arr, log, hrun, ?_⟩
  have hsh := load_clips_shape _ _ _ _ _ _ _ _ _ _ _ _ _ _ arr log hrun
  simpa using hsh

/-! ### C5 -/

/-- C5 amended: in flow modality, when the decode of a single frame
returns no data, `load_clips` prints that frame's path and continues
without aborting; the buffer slot for that position keeps the
allocation's initial contents (`np.empty` — not zero), which then pass
through `normalize_buffer` like every other element.  (In rgb modality
a failed decode instead raises inside `cv2.cvtColor` before the
`None` check.)  Shown on a validation-mode flow load of two frames
where the second horizontal-flow frame fails to decode. -/
theorem decode_skip_logs_and_keeps_init (codec : Codec)
    (initMem : List ℕ → ValO) (gu0 gv0 gv1 : GrayImg)
    (hu0 : codec.imreadGray "u0" = some gu0)
    (hu1 : codec.imreadGray "u1" = none)
    (hv0 : codec.imreadGray "v0" = some gv0)
    (hv1 : codec.imreadGray "v1" = some gv1) :
    ∃ arr, load_clips codec initMem [["u0", "u1"], ["v0", "v1"]] "flow"
        2 2 1 1 2 "validation" false 0 0 0 = some (arr, ["u1"]) ∧
      arr.data [0, 1, 0, 0] =
        oDiv (oSub (initMem [0, 1, 0, 0, 0]) (some 128)) (some 128) := by
  have hli0 : loopIndex 0 2 = some 0 := by simp [loopIndex]
  have hli1 : loopIndex 1 2 = some 1 := by simp [loopIndex]
  have hint : intRange 0 2 = [0, 1] := rfl
  have hr1 : List.range 1 = [0] := rfl
  have hget : [((0 : ℤ), (2 : ℤ))].get? 0 = some (0, 2) := rfl
  simp [load_clips, select_t_index, select_s_index, temporal_center_crop,
    spatial_center_crop, assembleAll, assembleStep, hli0, hli1, hint, hr1,
    hget, pyIndex, hu0, hu1, hv0, hv1, writeFrameFlowChan, normalize_buffer,
    slice0, transpose3012, List.foldlM_cons, List.foldlM_nil]

/-- C5 counterexample: in the run of the amended theorem with the
buffer allocated all-zero, the returned volume's slot for the skipped
frame is `(0 - 128) / 128 = -1`, not `0`: the claimed "zero-filled
slot in the returned volume" does not hold (and with `np.empty` the
allocation contents are not even zero to begin with). -/
theorem decode_skip_slot_not_zero :
    ∃ arr, load_clips
        ⟨fun _ => some (fun _ _ _ => 0),
          fun p => if p = "u1" then none else some (fun _ _ => 200),
          fun img _ _ => img, fun img _ _ => img⟩
        (fun _ => some 0) [["u0", "u1"], ["v0", "v1"]] "flow"
        2 2 1 1 2 "validation" false 0 0 0 = some (arr, ["u1"]) ∧
      arr.data [0, 1, 0, 0] = some (-1) := by
  have hli0 : loopIndex 0 2 = some 0 := by simp [loopIndex]
  have hli1 : loopIndex 1 2 = some 1 := by simp [loopIndex]
  have hint : intRange 0 2 = [0, 1] := rfl
  have hr1 : List.range 1 = [0] := rfl
  have hget : [((0 : ℤ), (2 : ℤ))].get? 0 = some (0, 2) := rfl
  simp [load_clips, select_t_index, select_s_index, temporal_center_crop,
    spatial_center_crop, assembleAll, assembleStep, hli0, hli1, hint, hr1,
    hget, pyIndex, writeFrameFlowChan, normalize_buffer,
    slice0, transpose3012, List.foldlM_cons, List.foldlM_nil, oDiv, oSub]

/-- Witness for C5's amended theorem: a concrete codec failing exactly
on `"u1"` and an all-37 allocation; the slot value is
`(37 - 128) / 128`, the path is printed, and the load succeeds. -/
theorem decode_skip_witness :
    ∃ arr, load_clips
        ⟨fun _ => some (fun _ _ _ => 0),
          fun p => if p = "u1" then none else some (fun _ _ => 200),
          fun img _ _ => img, fun img _ _ => img⟩
        (fun _ => some 37) [["u0", "u1"], ["v0", "v1"]] "flow"
        2 2 1 1 2 "validation" false 0 0 0 =
        some (arr, ["u1"]) ∧
      arr.data [0, 1, 0, 0] =
        oDiv (oSub (some 37) (some 128)) (some 128) :=
  decode_skip_logs_and_keeps_init _ (fun _ => some 37)
    (fun _ _ => 200) (fun _ _ => 200) (fun _ _ => 200)
    (by simp) (by simp) (by simp) (by simp)

/-! ### C1 -/

/-- C1 (code bug): `VideoDataset.__getitem__` never returns a
`(volume, label)` pair.  It forwards `_load_mode` (`"clip"` or
`"video"`) as `load_clips`'s `mode`, which fails the assertion
`mode in ['train', 'validation', 'test']`; moreover the call passes a
`clips_per_video` keyword that this `load_clips` does not accept, so
in Python the call raises `TypeError` before `load_clips` even runs.
Shown for both a single-clip rgb provider and a multi-clip flow
provider, at every index, draw, codec and allocation. -/
theorem getitem_never_returns (codec : Codec) (initMem : List ℕ → ValO)
    (index r_t r_h r_w : ℕ) :
    dataset_getitem ⟨[[["d"]]], [7], "rgb", "clip", 16⟩ codec initMem
      index r_t r_h r_w = none ∧
    dataset_getitem ⟨[[["u"], ["v"]]], [3], "flow", "video", 16⟩ codec initMem
      index r_t r_h r_w = none := by
  constructor <;>
  · unfold dataset_getitem
    rcases index with _ | n
    · simp [load_clips]
    · simp
